import Mathlib

/-
Verification of the byule/workers-r2-to-bigquery ingestion pipeline.

The development shallowly embeds the three source files:
  * `src/ndjsonstream.ts` (`ndjsonStream`) — the streaming NDJSON decoder;
  * `src/worker.ts` (`sendBatchToBigQuery`, `insertIntoBq`,
    `handleBigQueryResponse`, the `queue` trigger) — batching, insertion,
    response reconciliation and the queue handler;
  * `src/worker.js` (`streamNdjsonObjects`, its `queue` trigger) — the
    older variant, which augments parsed objects with a `generated_at`
    field and catches per-message failures in its queue loop.

Modelling choices:
  * Text is `List Char`; a byte chunk is modelled after `TextDecoder`
    has turned it into text (the `TextDecoder` with `stream: true` is an
    external collaborator that keeps multi-byte characters intact across
    chunk boundaries).
  * `JSON.parse` / `JSON.stringify` are external host primitives, so the
    decoder is parametrised by `parse : List Char → Except String J` and
    `size : J → Nat` (`size j` models `JSON.stringify(json).length`).
  * `fetch` responses are an oracle `net : Nat → BqResp` giving the
    transport result of the n-th `insertAll` call of a run.
  * JavaScript counters that can go negative (`batch.length - failedCount`)
    are `Int`; counters that only ever grow are `Nat`.
  * A thrown exception is the `Option String` (or `Except String`)
    error component of a result; `console.log`/`console.error` output is
    not modelled except where the logged value is itself computed (the
    first-failure diagnostics of `handleBigQueryResponse` are returned as
    part of the outcome).
-/

/-! ### NDJSON decoder (`src/ndjsonstream.ts`, `ndjsonStream`) -/

/-- The whitespace characters recognised by JavaScript `String.trim`
(restricted to the ASCII range, which is all the pipeline's claims use). -/
def isJsWhitespace (c : Char) : Bool :=
  c == ' ' || c == '\t' || c == '\n' || c == '\r' ||
    c == Char.ofNat 11 || c == Char.ofNat 12

/-- The truthiness of `line.trim()`, written `hasNonWs l`: the line contains
at least one non-whitespace character. -/
def hasNonWs (l : List Char) : Bool :=
  l.any (fun c => !(isJsWhitespace c))

/-- Splitting on the line terminator: `splitNlP input = (lines, fragment)`
models `input.split` on newline followed by `buffer = lines.pop() || ''`:
`lines` are the completed lines (the split segments before the last one)
and `fragment` is the trailing segment after the last newline. -/
def splitNlP : List Char → List (List Char) × List Char
  | [] => ([], [])
  | c :: cs =>
    if c = '\n' then ([] :: (splitNlP cs).1, (splitNlP cs).2)
    else
      match splitNlP cs with
      | ([], frag) => ([], c :: frag)
      | (l :: ls, frag) => ((c :: l) :: ls, frag)

/-- Prefixing a fragment onto a later split result: `mergeP f r` glues the
carry-over text `f` onto the first segment of `r`. -/
def mergeP (f : List Char) : List (List Char) × List Char → List (List Char) × List Char
  | ([], frag) => ([], f ++ frag)
  | (l :: ls, frag) => ((f ++ l) :: ls, frag)

/-- An item yielded by the decoder: `StreamItem` (`record`) or
`ErrorItem` (`failure`), as in `src/ndjsonstream.ts`. -/
inductive Item (J : Type) where
  | record (json : J) (bytes : Nat) (lineNumber : Nat)
  | failure (line : List Char) (lineNumber : Nat) (errorMessage : String)
deriving DecidableEq

/-- Processing of one completed line with line number `n` (the body of the
`for (const line of lines)` loop of `ndjsonStream`): a blank or
all-whitespace line yields nothing, otherwise the line is parsed and a
`record` (with `bytes` the length of the re-serialisation) or a `failure`
carrying the raw line and the parser message is yielded. -/
def processLine {J : Type} (parse : List Char → Except String J) (size : J → Nat)
    (n : Nat) (line : List Char) : List (Item J) :=
  if hasNonWs line then
    match parse line with
    | .ok j => [.record j (size j) n]
    | .error msg => [.failure line n msg]
  else []

/-- The `for (const line of lines)` loop: each line increments the 1-based
line counter (blank lines included) and is processed with its number.
Returns the final counter and the yielded items. -/
def processLines {J : Type} (parse : List Char → Except String J) (size : J → Nat) :
    Nat → List (List Char) → Nat × List (Item J)
  | n, [] => (n, [])
  | n, l :: ls =>
    (
      (processLines parse size (n + 1) ls).1,
      processLine parse size (n + 1) l ++ (processLines parse size (n + 1) ls).2
    )

/-- One iteration of the chunk-reading `while` loop of `ndjsonStream`:
append the chunk to the carry-over buffer, split on `'\n'`, keep the last
segment as the new buffer, and process the completed lines. State is
`(lineNumber, buffer)`. -/
def decodeStep {J : Type} (parse : List Char → Except String J) (size : J → Nat)
    (st : Nat × List Char) (chunk : List Char) : (Nat × List Char) × List (Item J) :=
  ( ((processLines parse size st.1 (splitNlP (st.2 ++ chunk)).1).1,
     (splitNlP (st.2 ++ chunk)).2),
    (processLines parse size st.1 (splitNlP (st.2 ++ chunk)).1).2 )

/-- The whole chunk-reading loop over a list of chunks. -/
def decodeChunks {J : Type} (parse : List Char → Except String J) (size : J → Nat) :
    Nat × List Char → List (List Char) → (Nat × List Char) × List (Item J)
  | st, [] => (st, [])
  | st, c :: cs =>
    ( (decodeChunks parse size (decodeStep parse size st c).1 cs).1,
      (decodeStep parse size st c).2 ++
        (decodeChunks parse size (decodeStep parse size st c).1 cs).2 )

/-- The epilogue of `ndjsonStream`: if the carry-over buffer holds
non-blank text it is treated as one final line with the next line number. -/
def decodeFinish {J : Type} (parse : List Char → Except String J) (size : J → Nat)
    (st : Nat × List Char) : List (Item J) :=
  if hasNonWs st.2 then processLine parse size (st.1 + 1) st.2 else []

/-- A complete run of `ndjsonStream` on a list of text chunks: start with
line counter `0` and empty buffer, consume every chunk, then flush the
final buffer. -/
def ndjsonRun {J : Type} (parse : List Char → Except String J) (size : J → Nat)
    (chunks : List (List Char)) : List (Item J) :=
  (decodeChunks parse size (0, []) chunks).2 ++
    decodeFinish parse size (decodeChunks parse size (0, []) chunks).1

/-- All lines of an input, the trailing fragment included — this is
exactly `input.split('\n')`. -/
def allLines (input : List Char) : List (List Char) :=
  (splitNlP input).1 ++ [(splitNlP input).2]

/-- Attach 1-based line numbers (offset by `n`) to a list of lines. -/
def numberLines (n : Nat) : List (List Char) → List (Nat × List Char)
  | [] => []
  | l :: ls => (n + 1, l) :: numberLines (n + 1) ls

/-! ### Older decoder (`src/worker.js`, `streamNdjsonObjects`) -/

/-- The `generated_at` augmentation of `streamNdjsonObjects`:
`if (!json.hasOwnProperty('generated_at')) json.generated_at = ...`.
`hasGen` models the property test and `setGen` models assigning the
current timestamp (an external clock value) to the field. -/
def augment {J : Type} (hasGen : J → Bool) (setGen : J → J) (j : J) : J :=
  if hasGen j then j else setGen j

/-- One completed line of `streamNdjsonObjects`: like `processLine`, but a
successfully parsed value is augmented with `generated_at` before being
yielded, and `bytes` is the length of the augmented value's
re-serialisation. (The "print the first row" logging is console-only.) -/
def processLineJs {J : Type} (parse : List Char → Except String J)
    (hasGen : J → Bool) (setGen : J → J) (size : J → Nat)
    (n : Nat) (line : List Char) : List (Item J) :=
  if hasNonWs line then
    match parse line with
    | .ok j =>
        [.record (augment hasGen setGen j) (size (augment hasGen setGen j)) n]
    | .error msg => [.failure line n msg]
  else []

/-- The line loop of `streamNdjsonObjects`. -/
def processLinesJs {J : Type} (parse : List Char → Except String J)
    (hasGen : J → Bool) (setGen : J → J) (size : J → Nat) :
    Nat → List (List Char) → Nat × List (Item J)
  | n, [] => (n, [])
  | n, l :: ls =>
    (
      (processLinesJs parse hasGen setGen size (n + 1) ls).1,
      processLineJs parse hasGen setGen size (n + 1) l ++
        (processLinesJs parse hasGen setGen size (n + 1) ls).2
    )

/-- One chunk iteration of `streamNdjsonObjects`. -/
def decodeStepJs {J : Type} (parse : List Char → Except String J)
    (hasGen : J → Bool) (setGen : J → J) (size : J → Nat)
    (st : Nat × List Char) (chunk : List Char) : (Nat × List Char) × List (Item J) :=
  ( ((processLinesJs parse hasGen setGen size st.1 (splitNlP (st.2 ++ chunk)).1).1,
     (splitNlP (st.2 ++ chunk)).2),
    (processLinesJs parse hasGen setGen size st.1 (splitNlP (st.2 ++ chunk)).1).2 )

/-- The chunk loop of `streamNdjsonObjects`. -/
def decodeChunksJs {J : Type} (parse : List Char → Except String J)
    (hasGen : J → Bool) (setGen : J → J) (size : J → Nat) :
    Nat × List Char → List (List Char) → (Nat × List Char) × List (Item J)
  | st, [] => (st, [])
  | st, c :: cs =>
    ( (decodeChunksJs parse hasGen setGen size (decodeStepJs parse hasGen setGen size st c).1 cs).1,
      (decodeStepJs parse hasGen setGen size st c).2 ++
        (decodeChunksJs parse hasGen setGen size (decodeStepJs parse hasGen setGen size st c).1 cs).2 )

/-- The epilogue of `streamNdjsonObjects` (the trailing buffer is parsed
and augmented exactly like a completed line). -/
def decodeFinishJs {J : Type} (parse : List Char → Except String J)
    (hasGen : J → Bool) (setGen : J → J) (size : J → Nat)
    (st : Nat × List Char) : List (Item J) :=
  if hasNonWs st.2 then processLineJs parse hasGen setGen size (st.1 + 1) st.2 else []

/-- A complete run of `streamNdjsonObjects` on a list of text chunks. -/
def ndjsonRunJs {J : Type} (parse : List Char → Except String J)
    (hasGen : J → Bool) (setGen : J → J) (size : J → Nat)
    (chunks : List (List Char)) : List (Item J) :=
  (decodeChunksJs parse hasGen setGen size (0, []) chunks).2 ++
    decodeFinishJs parse hasGen setGen size (decodeChunksJs parse hasGen setGen size (0, []) chunks).1

/-! ### Insertion (`src/worker.ts`: `sendBatchToBigQuery`, `insertIntoBq`,
`handleBigQueryResponse`) -/

/-- A member of the accumulating batch, as pushed by `insertIntoBq`:
`batch.push({ json, lineNumber })`. -/
structure BatchItem (J : Type) where
  json : J
  lineNumber : Nat
deriving DecidableEq

/-- One entry of the `insertErrors` array of a success response:
`{ index, errors: [{ message }] }` (`errors` flattened to its messages). -/
structure InsertError where
  index : Nat
  errors : List String
deriving DecidableEq

/-- The transport-level result of one `insertAll` call: a non-success
HTTP status with its body text, or a success status with the parsed
`insertErrors` array of the body. -/
inductive BqResp where
  | httpFailure (status : Nat) (body : String)
  | httpOk (insertErrors : List InsertError)
deriving DecidableEq

/-- The function `sendBatchToBigQuery` of `src/worker.ts`: on a non-success transport
status it throws `BigQuery API error: ...` (status and body text), on a
success status it returns the parsed response body. -/
def sendBatchToBigQuery (resp : BqResp) : Except String (List InsertError) :=
  match resp with
  | .httpFailure status body =>
      .error ("BigQuery API error: " ++ toString status ++ " " ++ body)
  | .httpOk errs => .ok errs

/-- The per-batch outcome computed by `handleBigQueryResponse`:
`batchSuccessful = batch.length - failedCount` (a JavaScript number, so it
may be negative), `batchFailed = failedCount`, and the first-failure
diagnostics `(lineNumber, json, message)` that the function reports for
the first `insertErrors` entry. -/
structure InsertOutcome (J : Type) where
  batchSuccessful : Int
  batchFailed : Nat
  firstFailure : Option (Nat × J × String)
deriving DecidableEq

/-- The function `handleBigQueryResponse` of `src/worker.ts`, applied to the
`insertErrors` array of a success response and the batch it answers:
`failedCount = insertErrors.length`, `successCount = batch.length -
failedCount`; when there is at least one entry, the first entry's `index`
is used to read `batch[firstError.index].lineNumber` (and `.json`) without
a bounds check — an out-of-range index makes the JavaScript access yield
`undefined` and the property read throw, modelled by the `.error` case.
The first error message is `firstError.errors[0]?.message` with fallback
`Unknown error`. -/
def handleBigQueryResponse {J : Type} (resp : List InsertError)
    (batch : List (BatchItem J)) : Except String (InsertOutcome J) :=
  match resp with
  | [] => .ok ⟨(batch.length : Int) - (resp.length : Int), resp.length, none⟩
  | firstError :: _ =>
    match batch[firstError.index]? with
    | none => .error "TypeError: cannot read lineNumber of undefined"
    | some item =>
        .ok ⟨(batch.length : Int) - (resp.length : Int), resp.length,
             some (item.lineNumber, item.json, firstError.errors.headD "Unknown error")⟩

/-- The mutable state of `insertIntoBq`, plus the bookkeeping field
`calls` recording, in order, each batch handed to `sendBatchToBigQuery`
(that is, each `insertAll` network call made so far). -/
structure BqState (J : Type) where
  batch : List (BatchItem J)
  batchSizeBytes : Nat
  totalBytes : Nat
  totalRecords : Nat
  successfulInserts : Int
  failedInserts : Nat
  skippedRecords : Nat
  calls : List (List (BatchItem J))
deriving DecidableEq

/-- The initial state of `insertIntoBq`. -/
def initBqState {J : Type} : BqState J := ⟨[], 0, 0, 0, 0, 0, 0, []⟩

/-- One dispatch of the current batch: `sendBatchToBigQuery` on the next
network response, then `handleBigQueryResponse`, accumulating
`successfulInserts` and `failedInserts`. A thrown error (transport failure
or unchecked index access) is returned as `some`; `insertIntoBq` does not
catch it. -/
def bqDispatch {J : Type} (net : Nat → BqResp) (st : BqState J) :
    BqState J × Option String :=
  match sendBatchToBigQuery (net st.calls.length) with
  | .error e => ({ st with calls := st.calls ++ [st.batch] }, some e)
  | .ok errs =>
    match handleBigQueryResponse errs st.batch with
    | .error e => ({ st with calls := st.calls ++ [st.batch] }, some e)
    | .ok oc =>
        ({ st with
            calls := st.calls ++ [st.batch],
            successfulInserts := st.successfulInserts + oc.batchSuccessful,
            failedInserts := st.failedInserts + oc.batchFailed }, none)

/-- The `for await (const item of dataStream)` loop of `insertIntoBq`:
an `ErrorItem` only increments `skippedRecords`; a `StreamItem` updates
the totals, and if appending it would push `batchSizeBytes` over the
threshold while the batch is non-empty, the current batch is dispatched
first (a thrown error aborting the whole loop), after which the record is
pushed. -/
def insertLoop {J : Type} (size : J → Nat) (net : Nat → BqResp) (maxB : Nat) :
    BqState J → List (Item J) → BqState J × Option String
  | st, [] => (st, none)
  | st, .failure _ _ _ :: rest =>
      insertLoop size net maxB { st with skippedRecords := st.skippedRecords + 1 } rest
  | st, .record j bytes ln :: rest =>
      if st.batchSizeBytes + size j > maxB ∧ st.batch.isEmpty = false then
        match bqDispatch net { st with totalBytes := st.totalBytes + bytes,
                                       totalRecords := st.totalRecords + 1 } with
        | (st2, some e) => (st2, some e)
        | (st2, none) =>
            insertLoop size net maxB
              { st2 with batch := [⟨j, ln⟩], batchSizeBytes := size j } rest
      else
        insertLoop size net maxB
          { st with totalBytes := st.totalBytes + bytes,
                    totalRecords := st.totalRecords + 1,
                    batch := st.batch ++ [⟨j, ln⟩],
                    batchSizeBytes := st.batchSizeBytes + size j } rest

/-- The body of `insertIntoBq` up to (and including) the final flush of a non-empty
remaining batch, started from an arbitrary state. -/
def insertCoreFrom {J : Type} (size : J → Nat) (net : Nat → BqResp) (maxB : Nat)
    (st : BqState J) (items : List (Item J)) : BqState J × Option String :=
  match insertLoop size net maxB st items with
  | (s, some e) => (s, some e)
  | (s, none) => if s.batch.isEmpty = false then bqDispatch net s else (s, none)

/-- The body of `insertIntoBq` up to (and including) the final flush, from the initial
state. -/
def insertCore {J : Type} (size : J → Nat) (net : Nat → BqResp) (maxB : Nat)
    (items : List (Item J)) : BqState J × Option String :=
  insertCoreFrom size net maxB initBqState items

/-- The whole of `insertIntoBq`: consume the stream, flush the remainder,
and finally throw `Failed to insert N records` when `failedInserts > 0`.
A transport or reconciliation error thrown earlier propagates unchanged. -/
def insertIntoBq {J : Type} (size : J → Nat) (net : Nat → BqResp) (maxB : Nat)
    (items : List (Item J)) : BqState J × Option String :=
  match insertCore size net maxB items with
  | (st, some e) => (st, some e)
  | (st, none) =>
      if st.failedInserts > 0 then
        (st, some ("Failed to insert " ++ toString st.failedInserts ++ " records"))
      else (st, none)

/-- The hard-coded batch size threshold of `insertIntoBq`:
`const maxBatchSizeBytes = 1024 * 1024`. -/
def maxBatchSizeBytes : Nat := 1024 * 1024

/-! ### The batching discipline of `insertIntoBq`, in isolation -/

/-- The batching logic of `insertIntoBq`'s loop, separated from
dispatching: accumulate records, flush when appending the next record
would exceed `maxB` and the accumulator is non-empty (the record then
starts the new batch), and flush a non-empty remainder at the end. -/
def batchRec {J : Type} (size : J → Nat) (maxB : Nat)
    (cur : List (BatchItem J)) (bytes : Nat) :
    List (BatchItem J) → List (List (BatchItem J))
  | [] => if cur.isEmpty then [] else [cur]
  | r :: rs =>
    if bytes + size r.json > maxB ∧ cur.isEmpty = false then
      cur :: batchRec size maxB [r] (size r.json) rs
    else
      batchRec size maxB (cur ++ [r]) (bytes + size r.json) rs

/-- The batches that `insertIntoBq` forms from a record sequence. -/
def runBatcher {J : Type} (size : J → Nat) (maxB : Nat)
    (recs : List (BatchItem J)) : List (List (BatchItem J)) :=
  batchRec size maxB [] 0 recs

/-- The serialized size of a batch: the sum of its members' sizes, which
is what `batchSizeBytes` tracks. -/
def batchBytes {J : Type} (size : J → Nat) (b : List (BatchItem J)) : Nat :=
  (b.map (fun r => size r.json)).sum

/-- The serialized size of the first member of a batch (`0` if empty). -/
def headSize {J : Type} (size : J → Nat) : List (BatchItem J) → Nat
  | [] => 0
  | r :: _ => size r.json

/-- The `Record` subsequence of a decoded stream, as batch members. -/
def recordsOf {J : Type} : List (Item J) → List (BatchItem J)
  | [] => []
  | .record j _ ln :: rest => ⟨j, ln⟩ :: recordsOf rest
  | .failure _ _ _ :: rest => recordsOf rest

/-! ### Queue triggers -/

/-- The `queue` handler of `src/worker.ts`: keys prefixed `__temporary`
are skipped; otherwise the key's run is attempted and on success the
message is acked; on failure the error is logged and **re-thrown**, which
exits the `for` loop. Result: the keys whose runs were attempted, in
order, and the propagated error (if any). `run` abstracts
`processR2Object` + `insertIntoBq` for one key. -/
def queueTs (run : String → Except String Unit) : List String → List String × Option String
  | [] => ([], none)
  | k :: rest =>
    if k.startsWith "__temporary" then queueTs run rest
    else
      match run k with
      | .ok _ =>
          ((k :: (queueTs run rest).1), (queueTs run rest).2)
      | .error e => ([k], some e)

/-- The `queue` handler of `src/worker.js` (and of the older
`src/worker.ts` variant): keys prefixed `__temporary` are skipped;
otherwise the key's run is attempted and any failure is caught and logged,
the loop continuing with the next message. Result: the keys whose runs
were attempted, in order. -/
def queueCatching (run : String → Except String Unit) : List String → List String
  | [] => []
  | k :: rest =>
    if k.startsWith "__temporary" then queueCatching run rest
    else k :: queueCatching run rest

/-! ### Decoder lemmas -/

theorem mergeP_nil (r : List (List Char) × List Char) : mergeP [] r = r := by
  rcases r with ⟨ls, f⟩
  cases ls <;> simp [mergeP]

theorem splitNlP_append (a b : List Char) :
    splitNlP (a ++ b) =
      ((splitNlP a).1 ++ (mergeP (splitNlP a).2 (splitNlP b)).1,
       (mergeP (splitNlP a).2 (splitNlP b)).2) := by
  induction a with
  | nil => simp [splitNlP, mergeP_nil]
  | cons c cs ih =>
    by_cases hc : c = '\n'
    · subst hc
      simp [splitNlP, ih]
    · rcases h1 : splitNlP cs with ⟨ls1, f1⟩
      rcases h2 : splitNlP b with ⟨ls2, f2⟩
      simp only [List.cons_append, List.append_eq, splitNlP, if_neg hc]
      rw [ih, h1, h2]
      cases ls1 <;> cases ls2 <;> simp [mergeP]

theorem splitNlP_frag_no_nl (input : List Char) : '\n' ∉ (splitNlP input).2 := by
  induction input with
  | nil => simp [splitNlP]
  | cons c cs ih =>
    by_cases hc : c = '\n'
    · subst hc; simpa [splitNlP] using ih
    · rcases h1 : splitNlP cs with ⟨ls1, f1⟩
      rw [h1] at ih
      cases ls1 <;> simp only [splitNlP, if_neg hc, h1] <;>
        simp_all [eq_comm]

theorem splitNlP_no_nl (l : List Char) (h : '\n' ∉ l) : splitNlP l = ([], l) := by
  induction l with
  | nil => simp [splitNlP]
  | cons c cs ih =>
    have hc : ¬ c = '\n' := by
      intro hcc; exact h (by simp [hcc])
    have hcs : '\n' ∉ cs := fun hm => h (List.mem_cons_of_mem _ hm)
    simp [splitNlP, if_neg hc, ih hcs]

theorem processLines_fst {J : Type} (parse : List Char → Except String J) (size : J → Nat)
    (n : Nat) (ls : List (List Char)) :
    (processLines parse size n ls).1 = n + ls.length := by
  induction ls generalizing n with
  | nil => simp [processLines]
  | cons l ls ih => simp [processLines, ih]; omega

theorem processLines_append {J : Type} (parse : List Char → Except String J) (size : J → Nat)
    (n : Nat) (xs ys : List (List Char)) :
    processLines parse size n (xs ++ ys) =
      ((processLines parse size (n + xs.length) ys).1,
       (processLines parse size n xs).2 ++ (processLines parse size (n + xs.length) ys).2) := by
  induction xs generalizing n with
  | nil => simp [processLines]
  | cons l xs ih =>
    have harith : n + 1 + xs.length = n + (xs.length + 1) := by omega
    simp only [List.cons_append, List.append_eq, processLines, ih, harith,
      List.length_cons, List.append_assoc]

theorem decodeStep_split {J : Type} (parse : List Char → Except String J) (size : J → Nat)
    (st : Nat × List Char) (c c' : List Char) :
    decodeStep parse size st (c ++ c') =
      ((decodeStep parse size (decodeStep parse size st c).1 c').1,
       (decodeStep parse size st c).2 ++ (decodeStep parse size (decodeStep parse size st c).1 c').2) := by
  have hfrag : '\n' ∉ (splitNlP (st.2 ++ c)).2 := splitNlP_frag_no_nl _
  have h1 : st.2 ++ (c ++ c') = (st.2 ++ c) ++ c' := by simp [List.append_assoc]
  rcases hsp : splitNlP (st.2 ++ c) with ⟨ls1, f1⟩
  rw [hsp] at hfrag
  have hf1 : splitNlP f1 = ([], f1) := splitNlP_no_nl f1 hfrag
  have hsp2 : splitNlP ((st.2 ++ c) ++ c') =
      (ls1 ++ (mergeP f1 (splitNlP c')).1, (mergeP f1 (splitNlP c')).2) := by
    rw [splitNlP_append, hsp]
  have hfc : splitNlP (f1 ++ c') =
      ((mergeP f1 (splitNlP c')).1, (mergeP f1 (splitNlP c')).2) := by
    rw [splitNlP_append, hf1]
    simp
  simp only [decodeStep, h1, hsp2, hsp, hfc, processLines_append, processLines_fst]

theorem decodeChunks_join {J : Type} (parse : List Char → Except String J) (size : J → Nat)
    (chunks : List (List Char)) (st : Nat × List Char) (h : '\n' ∉ st.2) :
    decodeChunks parse size st chunks = decodeChunks parse size st [chunks.flatten] := by
  induction chunks generalizing st with
  | nil =>
    have hsp : splitNlP st.2 = ([], st.2) := splitNlP_no_nl st.2 h
    simp [decodeChunks, decodeStep, hsp, processLines]
  | cons c cs ih =>
    have hfrag : '\n' ∉ (decodeStep parse size st c).1.2 := by
      simp only [decodeStep]
      exact splitNlP_frag_no_nl _
    have split2 := decodeStep_split parse size st c cs.flatten
    simp only [decodeChunks, ih _ hfrag, List.flatten_cons, split2, List.append_nil,
      List.append_assoc]

theorem numberLines_bind {J : Type} (parse : List Char → Except String J) (size : J → Nat)
    (n : Nat) (ls : List (List Char)) :
    (numberLines n ls).flatMap (fun p => processLine parse size p.1 p.2) =
      (processLines parse size n ls).2 := by
  induction ls generalizing n with
  | nil => simp [numberLines, processLines]
  | cons l ls ih => simp [numberLines, processLines, ih]

theorem numberLines_append (n : Nat) (xs ys : List (List Char)) :
    numberLines n (xs ++ ys) = numberLines n xs ++ numberLines (n + xs.length) ys := by
  induction xs generalizing n with
  | nil => simp [numberLines]
  | cons l xs ih =>
    have harith : n + 1 + xs.length = n + (xs.length + 1) := by omega
    simp [numberLines, ih, harith]

theorem decodeFinish_eq {J : Type} (parse : List Char → Except String J) (size : J → Nat)
    (st : Nat × List Char) :
    decodeFinish parse size st = processLine parse size (st.1 + 1) st.2 := by
  by_cases hw : hasNonWs st.2 = true
  · simp [decodeFinish, hw]
  · simp [decodeFinish, processLine, hw]

theorem ndjsonRun_eq {J : Type} (parse : List Char → Except String J) (size : J → Nat)
    (chunks : List (List Char)) :
    ndjsonRun parse size chunks =
      (numberLines 0 (allLines chunks.flatten)).flatMap
        (fun p => processLine parse size p.1 p.2) := by
  have hjoin := decodeChunks_join parse size chunks (0, ([] : List Char)) (by simp)
  unfold ndjsonRun
  rw [hjoin]
  simp only [decodeChunks, decodeStep, List.nil_append, List.append_nil]
  rw [decodeFinish_eq]
  simp [allLines, numberLines_append, numberLines_bind, numberLines,
    processLines_fst]

/-! ### The `worker.js` decoder is the `ndjsonstream.ts` decoder with an
augmenting parse function -/

theorem processLineJs_eq {J : Type} (parse : List Char → Except String J)
    (hasGen : J → Bool) (setGen : J → J) (size : J → Nat) (n : Nat) (line : List Char) :
    processLineJs parse hasGen setGen size n line =
      processLine (fun l => Except.map (augment hasGen setGen) (parse l)) size n line := by
  by_cases hw : hasNonWs line = true
  · cases hp : parse line <;> simp [processLineJs, processLine, hw, hp, Except.map]
  · simp [processLineJs, processLine, hw]

theorem processLinesJs_eq {J : Type} (parse : List Char → Except String J)
    (hasGen : J → Bool) (setGen : J → J) (size : J → Nat) (n : Nat) (ls : List (List Char)) :
    processLinesJs parse hasGen setGen size n ls =
      processLines (fun l => Except.map (augment hasGen setGen) (parse l)) size n ls := by
  induction ls generalizing n with
  | nil => simp [processLinesJs, processLines]
  | cons l ls ih => simp [processLinesJs, processLines, ih, processLineJs_eq]

theorem decodeStepJs_eq {J : Type} (parse : List Char → Except String J)
    (hasGen : J → Bool) (setGen : J → J) (size : J → Nat)
    (st : Nat × List Char) (chunk : List Char) :
    decodeStepJs parse hasGen setGen size st chunk =
      decodeStep (fun l => Except.map (augment hasGen setGen) (parse l)) size st chunk := by
  simp [decodeStepJs, decodeStep, processLinesJs_eq]

theorem decodeChunksJs_eq {J : Type} (parse : List Char → Except String J)
    (hasGen : J → Bool) (setGen : J → J) (size : J → Nat)
    (st : Nat × List Char) (chunks : List (List Char)) :
    decodeChunksJs parse hasGen setGen size st chunks =
      decodeChunks (fun l => Except.map (augment hasGen setGen) (parse l)) size st chunks := by
  induction chunks generalizing st with
  | nil => simp [decodeChunksJs, decodeChunks]
  | cons c cs ih => simp [decodeChunksJs, decodeChunks, ih, decodeStepJs_eq]

theorem ndjsonRunJs_eq {J : Type} (parse : List Char → Except String J)
    (hasGen : J → Bool) (setGen : J → J) (size : J → Nat) (chunks : List (List Char)) :
    ndjsonRunJs parse hasGen setGen size chunks =
      ndjsonRun (fun l => Except.map (augment hasGen setGen) (parse l)) size chunks := by
  simp [ndjsonRunJs, ndjsonRun, decodeChunksJs_eq, decodeFinishJs, decodeFinish,
    processLineJs_eq]

/-! ### Batcher lemmas -/

theorem batchBytes_nil {J : Type} (size : J → Nat) : batchBytes size [] = 0 := rfl

theorem batchBytes_append {J : Type} (size : J → Nat) (a b : List (BatchItem J)) :
    batchBytes size (a ++ b) = batchBytes size a + batchBytes size b := by
  simp [batchBytes]

theorem batchBytes_single {J : Type} (size : J → Nat) (r : BatchItem J) :
    batchBytes size [r] = size r.json := by
  simp [batchBytes]

theorem batchRec_flatten {J : Type} (size : J → Nat) (maxB : Nat)
    (recs : List (BatchItem J)) : ∀ (cur : List (BatchItem J)) (bytes : Nat),
    (batchRec size maxB cur bytes recs).flatten = cur ++ recs := by
  induction recs with
  | nil => intro cur bytes; cases cur <;> simp [batchRec]
  | cons r rs ih =>
    intro cur bytes
    by_cases h : bytes + size r.json > maxB ∧ cur.isEmpty = false
    · rw [batchRec, if_pos h]
      simp [ih]
    · rw [batchRec, if_neg h, ih]
      simp

theorem batchRec_head {J : Type} (size : J → Nat) (maxB : Nat)
    (recs : List (BatchItem J)) : ∀ (cur : List (BatchItem J)) (bytes : Nat),
    cur ≠ [] → ∃ ext rest, batchRec size maxB cur bytes recs = (cur ++ ext) :: rest := by
  induction recs with
  | nil =>
    intro cur bytes hcur
    refine ⟨[], [], ?_⟩
    have : cur.isEmpty = false := by
      cases cur with
      | nil => exact absurd rfl hcur
      | cons a as => rfl
    simp [batchRec, this]
  | cons r rs ih =>
    intro cur bytes hcur
    by_cases h : bytes + size r.json > maxB ∧ cur.isEmpty = false
    · exact ⟨[], batchRec size maxB [r] (size r.json) rs, by simp [batchRec, h]⟩
    · obtain ⟨ext, rest, hrec⟩ := ih (cur ++ [r]) (bytes + size r.json) (by simp)
      refine ⟨[r] ++ ext, rest, ?_⟩
      rw [batchRec, if_neg h, hrec]
      simp

theorem batchRec_mem {J : Type} (size : J → Nat) (maxB : Nat)
    (recs : List (BatchItem J)) : ∀ (cur : List (BatchItem J)) (bytes : Nat),
    bytes = batchBytes size cur → (cur.length ≤ 1 ∨ bytes ≤ maxB) →
    ∀ b ∈ batchRec size maxB cur bytes recs,
      b ≠ [] ∧ (b.length = 1 ∨ batchBytes size b ≤ maxB) := by
  induction recs with
  | nil =>
    intro cur bytes hbytes hinv b hb
    rw [batchRec] at hb
    cases hcur : cur.isEmpty with
    | true => rw [hcur] at hb; simp at hb
    | false =>
      cases cur with
      | nil => simp at hcur
      | cons a as =>
        simp at hb
        rw [hb]
        refine ⟨by simp, ?_⟩
        rcases hinv with hlen | hmax
        · left
          simp only [List.length_cons] at hlen ⊢
          omega
        · right
          rw [← hbytes]
          exact hmax
  | cons r rs ih =>
    intro cur bytes hbytes hinv b hb
    by_cases h : bytes + size r.json > maxB ∧ cur.isEmpty = false
    · rw [batchRec, if_pos h] at hb
      rcases List.mem_cons.mp hb with hb1 | hb2
      · have hne : cur ≠ [] := by
          intro hc; rw [hc] at h; simp at h
        rw [hb1]
        refine ⟨hne, ?_⟩
        rcases hinv with hlen | hmax
        · left
          cases cur with
          | nil => exact absurd rfl hne
          | cons a as =>
            simp only [List.length_cons] at hlen ⊢
            omega
        · right
          rw [← hbytes]
          exact hmax
      · exact ih [r] (size r.json) (by simp [batchBytes_single]) (by simp) b hb2
    · rw [batchRec, if_neg h] at hb
      have hnewbytes : bytes + size r.json = batchBytes size (cur ++ [r]) := by
        rw [batchBytes_append, batchBytes_single, hbytes]
      have hnewinv : (cur ++ [r]).length ≤ 1 ∨ bytes + size r.json ≤ maxB := by
        rcases Decidable.not_and_iff_or_not.mp h with hle | hemp
        · right; omega
        · left
          have hnil : cur = [] := by
            cases cur with
            | nil => rfl
            | cons a as => simp at hemp
          simp [hnil]
      exact ih (cur ++ [r]) (bytes + size r.json) hnewbytes hnewinv b hb

theorem batchRec_chain {J : Type} (size : J → Nat) (maxB : Nat)
    (recs : List (BatchItem J)) : ∀ (cur : List (BatchItem J)) (bytes : Nat),
    bytes = batchBytes size cur →
    List.Chain' (fun x y => maxB < batchBytes size x + headSize size y)
      (batchRec size maxB cur bytes recs) := by
  induction recs with
  | nil =>
    intro cur bytes hbytes
    cases hcur : cur.isEmpty <;> simp [batchRec, hcur]
  | cons r rs ih =>
    intro cur bytes hbytes
    by_cases h : bytes + size r.json > maxB ∧ cur.isEmpty = false
    · rw [batchRec, if_pos h]
      rw [List.chain'_cons']
      constructor
      · intro y hy
        obtain ⟨ext, rest, hrec⟩ := batchRec_head size maxB rs [r] (size r.json) (by simp)
        rw [hrec] at hy
        simp at hy
        subst hy
        simp only [List.cons_append, headSize]
        rw [← hbytes]
        exact h.1
      · exact ih [r] (size r.json) (by simp [batchBytes_single])
    · rw [batchRec, if_neg h]
      exact ih (cur ++ [r]) (bytes + size r.json)
        (by rw [batchBytes_append, batchBytes_single, hbytes])

/-! ### Inserter lemmas -/

theorem bqDispatch_clean {J : Type} (net : Nat → BqResp)
    (hnet : ∀ n, net n = BqResp.httpOk []) (st : BqState J) :
    bqDispatch net st =
      ({ st with calls := st.calls ++ [st.batch],
                 successfulInserts := st.successfulInserts + st.batch.length }, none) := by
  simp [bqDispatch, hnet, sendBatchToBigQuery, handleBigQueryResponse]

theorem insertIntoBq_fst {J : Type} (size : J → Nat) (net : Nat → BqResp) (maxB : Nat)
    (items : List (Item J)) :
    (insertIntoBq size net maxB items).1 = (insertCore size net maxB items).1 := by
  rcases hc : insertCore size net maxB items with ⟨st, e⟩
  cases e with
  | none =>
    by_cases hf : st.failedInserts > 0 <;> simp [insertIntoBq, hc, hf]
  | some e => simp [insertIntoBq, hc]

theorem insertIntoBq_propagate {J : Type} (size : J → Nat) (net : Nat → BqResp) (maxB : Nat)
    (items : List (Item J)) (e : String)
    (h : (insertCore size net maxB items).2 = some e) :
    insertIntoBq size net maxB items = ((insertCore size net maxB items).1, some e) := by
  rcases hc : insertCore size net maxB items with ⟨st, e2⟩
  rw [hc] at h
  simp at h
  subst h
  simp [insertIntoBq, hc]

theorem insertCoreFrom_clean {J : Type} (size : J → Nat) (net : Nat → BqResp) (maxB : Nat)
    (hnet : ∀ n, net n = BqResp.httpOk []) (items : List (Item J)) :
    ∀ st : BqState J,
    (insertCoreFrom size net maxB st items).2 = none ∧
    (insertCoreFrom size net maxB st items).1.calls =
      st.calls ++ batchRec size maxB st.batch st.batchSizeBytes (recordsOf items) := by
  induction items with
  | nil =>
    intro st
    cases hcur : st.batch.isEmpty with
    | true =>
      have hbatch : st.batch = [] := by
        cases hb : st.batch with
        | nil => rfl
        | cons a as => rw [hb] at hcur; simp at hcur
      simp [insertCoreFrom, insertLoop, hcur, recordsOf, batchRec, hbatch]
    | false =>
      simp [insertCoreFrom, insertLoop, hcur, recordsOf, batchRec,
        bqDispatch_clean net hnet]
  | cons item rest ih =>
    intro st
    cases item with
    | failure l n m =>
      have hstep : insertCoreFrom size net maxB st (Item.failure l n m :: rest) =
          insertCoreFrom size net maxB
            { st with skippedRecords := st.skippedRecords + 1 } rest := by
        simp [insertCoreFrom, insertLoop]
      rw [hstep]
      simpa [recordsOf] using ih { st with skippedRecords := st.skippedRecords + 1 }
    | record j bytes ln =>
      by_cases h : st.batchSizeBytes + size j > maxB ∧ st.batch.isEmpty = false
      · have hstep : insertCoreFrom size net maxB st (Item.record j bytes ln :: rest) =
            insertCoreFrom size net maxB
              { st with totalBytes := st.totalBytes + bytes,
                        totalRecords := st.totalRecords + 1,
                        calls := st.calls ++ [st.batch],
                        successfulInserts := st.successfulInserts + st.batch.length,
                        batch := [⟨j, ln⟩],
                        batchSizeBytes := size j } rest := by
          simp only [insertCoreFrom, insertLoop, if_pos h, bqDispatch_clean net hnet]
        rw [hstep]
        have := ih { st with totalBytes := st.totalBytes + bytes,
                             totalRecords := st.totalRecords + 1,
                             calls := st.calls ++ [st.batch],
                             successfulInserts := st.successfulInserts + st.batch.length,
                             batch := [⟨j, ln⟩],
                             batchSizeBytes := size j }
        refine ⟨this.1, ?_⟩
        rw [this.2]
        simp only [recordsOf, batchRec, if_pos h, List.append_assoc, List.cons_append,
          List.nil_append]
      · have hstep : insertCoreFrom size net maxB st (Item.record j bytes ln :: rest) =
            insertCoreFrom size net maxB
              { st with totalBytes := st.totalBytes + bytes,
                        totalRecords := st.totalRecords + 1,
                        batch := st.batch ++ [⟨j, ln⟩],
                        batchSizeBytes := st.batchSizeBytes + size j } rest := by
          simp only [insertCoreFrom, insertLoop, if_neg h]
        rw [hstep]
        have := ih { st with totalBytes := st.totalBytes + bytes,
                             totalRecords := st.totalRecords + 1,
                             batch := st.batch ++ [⟨j, ln⟩],
                             batchSizeBytes := st.batchSizeBytes + size j }
        refine ⟨this.1, ?_⟩
        rw [this.2]
        simp only [recordsOf, batchRec, if_neg h]

theorem insertLoop_failures {J : Type} (size : J → Nat) (net : Nat → BqResp) (maxB : Nat)
    (items : List (Item J))
    (hall : ∀ i ∈ items, ∃ l n m, i = Item.failure l n m) :
    ∀ st : BqState J,
    insertLoop size net maxB st items =
      ({ st with skippedRecords := st.skippedRecords + items.length }, none) := by
  induction items with
  | nil => intro st; simp [insertLoop]
  | cons item rest ih =>
    intro st
    obtain ⟨l, n, m, hi⟩ := hall item (List.mem_cons_self item rest)
    subst hi
    have hrest : ∀ i ∈ rest, ∃ l n m, i = Item.failure l n m :=
      fun i hi => hall i (List.mem_cons_of_mem _ hi)
    rw [insertLoop, ih hrest]
    have : st.skippedRecords + 1 + rest.length = st.skippedRecords + (rest.length + 1) := by
      omega
    simp [this]

theorem insertIntoBq_terminal {J : Type} (size : J → Nat) (net : Nat → BqResp) (maxB : Nat)
    (items : List (Item J)) (h : (insertCore size net maxB items).2 = none) :
    ((insertIntoBq size net maxB items).2 ≠ none ↔
      0 < (insertCore size net maxB items).1.failedInserts) := by
  rcases hc : insertCore size net maxB items with ⟨st, e⟩
  rw [hc] at h
  simp at h
  subst h
  by_cases hf : st.failedInserts > 0 <;> simp [insertIntoBq, hc, hf]

theorem insertLoop_transport_abort {J : Type} (size : J → Nat) (net : Nat → BqResp)
    (maxB : Nat) (st : BqState J) (j : J) (bytes ln : Nat) (rest : List (Item J))
    (status : Nat) (body : String)
    (hflush : st.batchSizeBytes + size j > maxB) (hne : st.batch.isEmpty = false)
    (hnet : net st.calls.length = BqResp.httpFailure status body) :
    insertLoop size net maxB st (Item.record j bytes ln :: rest) =
      ({ st with totalBytes := st.totalBytes + bytes,
                 totalRecords := st.totalRecords + 1,
                 calls := st.calls ++ [st.batch] },
       some ("BigQuery API error: " ++ toString status ++ " " ++ body)) := by
  rw [insertLoop, if_pos ⟨hflush, hne⟩]
  simp [bqDispatch, hnet, sendBatchToBigQuery]

theorem queueCatching_filter (run : String → Except String Unit) (keys : List String) :
    queueCatching run keys =
      keys.filter (fun k => !(k.startsWith "__temporary")) := by
  induction keys with
  | nil => simp [queueCatching]
  | cons k rest ih =>
    cases h : k.startsWith "__temporary" <;>
      simp [queueCatching, h, List.filter_cons, ih]

/-! ### Further decoder helpers -/

theorem numberLines_map_fst (n : Nat) (ls : List (List Char)) :
    (numberLines n ls).map Prod.fst = List.range' (n + 1) ls.length := by
  induction ls generalizing n with
  | nil => simp [numberLines]
  | cons l ls ih => simp [numberLines, List.range'_succ, ih]

theorem numberLines_map_snd (n : Nat) (ls : List (List Char)) :
    (numberLines n ls).map Prod.snd = ls := by
  induction ls generalizing n with
  | nil => simp [numberLines]
  | cons l ls ih => simp [numberLines, ih]

theorem splitNlP_line_cons (l : List Char) (rest : List Char) (h : '\n' ∉ l) :
    splitNlP (l ++ '\n' :: rest) = (l :: (splitNlP rest).1, (splitNlP rest).2) := by
  induction l with
  | nil => simp [splitNlP]
  | cons c cs ih =>
    have hc : ¬ c = '\n' := by
      intro hcc; exact h (by simp [hcc])
    have hcs : '\n' ∉ cs := fun hm => h (List.mem_cons_of_mem _ hm)
    simp only [List.cons_append, List.append_eq, splitNlP, if_neg hc, ih hcs]

theorem splitNlP_chars (input : List Char) :
    (∀ l ∈ (splitNlP input).1, ∀ c ∈ l, c ∈ input) ∧
    (∀ c ∈ (splitNlP input).2, c ∈ input) := by
  induction input with
  | nil => simp [splitNlP]
  | cons c cs ih =>
    by_cases hc : c = '\n'
    · subst hc
      refine ⟨?_, ?_⟩
      · intro l hl x hx
        simp only [splitNlP, if_pos rfl] at hl
        rcases List.mem_cons.mp hl with hl1 | hl2
        · subst hl1; simp at hx
        · exact List.mem_cons_of_mem _ (ih.1 l hl2 x hx)
      · intro x hx
        simp only [splitNlP, if_pos rfl] at hx
        exact List.mem_cons_of_mem _ (ih.2 x hx)
    · rcases h1 : splitNlP cs with ⟨ls1, f1⟩
      rw [h1] at ih
      cases ls1 with
      | nil =>
        refine ⟨?_, ?_⟩
        · intro l hl
          simp only [splitNlP, if_neg hc, h1] at hl
          simp at hl
        · intro x hx
          simp only [splitNlP, if_neg hc, h1] at hx
          rcases List.mem_cons.mp hx with hx1 | hx2
          · subst hx1; exact List.mem_cons_self _ _
          · exact List.mem_cons_of_mem _ (ih.2 x hx2)
      | cons hd tl =>
        refine ⟨?_, ?_⟩
        · intro l hl x hx
          simp only [splitNlP, if_neg hc, h1] at hl
          rcases List.mem_cons.mp hl with hl1 | hl2
          · subst hl1
            rcases List.mem_cons.mp hx with hx1 | hx2
            · subst hx1; exact List.mem_cons_self _ _
            · exact List.mem_cons_of_mem _ (ih.1 hd (List.mem_cons_self _ _) x hx2)
          · exact List.mem_cons_of_mem _ (ih.1 l (List.mem_cons_of_mem _ hl2) x hx)
        · intro x hx
          simp only [splitNlP, if_neg hc, h1] at hx
          exact List.mem_cons_of_mem _ (ih.2 x hx)

theorem processLines_blank {J : Type} (parse : List Char → Except String J) (size : J → Nat)
    (n : Nat) (ls : List (List Char)) (h : ∀ l ∈ ls, hasNonWs l = false) :
    (processLines parse size n ls).2 = [] := by
  induction ls generalizing n with
  | nil => simp [processLines]
  | cons l ls ih =>
    have hl : hasNonWs l = false := h l (List.mem_cons_self _ _)
    have hls : ∀ x ∈ ls, hasNonWs x = false := fun x hx => h x (List.mem_cons_of_mem _ hx)
    simp [processLines, processLine, hl, ih _ hls]

/-! ### Concrete collaborators used to evaluate theorems on closed inputs -/

/-- A toy JSON parser over `Nat` payloads: the line `1` parses to `1`, the
line `2` parses to `2`, anything else is a parse error `bad`. -/
def wParse : List Char → Except String Nat :=
  fun l => if l = ['1'] then .ok 1 else if l = ['2'] then .ok 2 else .error "bad"

/-- A toy serialized-size function. -/
def wSize : Nat → Nat := fun j => j + 10

/-- A toy `generated_at` presence test: even payloads already carry it. -/
def wHasGen : Nat → Bool := fun j => j % 2 == 0

/-- A toy `generated_at` assignment. -/
def wSetGen : Nat → Nat := fun j => j * 2

/-- A toy per-key pipeline run: key `a` fails, all others succeed. -/
def wRun : String → Except String Unit :=
  fun k => if k = "a" then .error "boom" else .ok ()

/-! ### Claims about the decoder -/

/-- Claim C4: for every input and every way of splitting it into chunks,
the decoder's output equals the blank-skipping processing of the 1-based
numbered lines of the whole input — so the k-th line (blank lines counted)
carries line number k, a blank line yields nothing, and the yielded items
do not depend on the chunk boundaries. -/
theorem claim_C4_line_numbering {J : Type} (parse : List Char → Except String J)
    (size : J → Nat) :
    (∀ chunks : List (List Char),
      ndjsonRun parse size chunks =
        (numberLines 0 (allLines chunks.flatten)).flatMap
          (fun p => processLine parse size p.1 p.2)) ∧
    (∀ ls : List (List Char),
      (numberLines 0 ls).map Prod.fst = List.range' 1 ls.length ∧
      (numberLines 0 ls).map Prod.snd = ls) :=
  ⟨fun chunks => ndjsonRun_eq parse size chunks,
   fun ls => ⟨numberLines_map_fst 0 ls, numberLines_map_snd 0 ls⟩⟩

/-- Claim C6: a line that fails to parse yields a `ParseFailure` carrying
the raw line, its line number and the parser's message, and decoding
continues: a malformed line between two valid lines produces
`[Record, ParseFailure, Record]` with consecutive line numbers 1, 2, 3. -/
theorem claim_C6_malformed_line {J : Type} (parse : List Char → Except String J)
    (size : J → Nat) (l1 l2 l3 : List Char) (j1 j3 : J) (msg : String)
    (h1nl : '\n' ∉ l1) (h2nl : '\n' ∉ l2) (h3nl : '\n' ∉ l3)
    (h1w : hasNonWs l1 = true) (h2w : hasNonWs l2 = true) (h3w : hasNonWs l3 = true)
    (hp1 : parse l1 = .ok j1) (hp2 : parse l2 = .error msg) (hp3 : parse l3 = .ok j3) :
    ndjsonRun parse size [l1 ++ '\n' :: (l2 ++ '\n' :: (l3 ++ ['\n']))] =
      [Item.record j1 (size j1) 1, Item.failure l2 2 msg,
       Item.record j3 (size j3) 3] := by
  have hsplit : splitNlP (l1 ++ '\n' :: (l2 ++ '\n' :: (l3 ++ ['\n']))) =
      ([l1, l2, l3], []) := by
    rw [splitNlP_line_cons l1 _ h1nl, splitNlP_line_cons l2 _ h2nl,
      splitNlP_line_cons l3 _ h3nl]
    simp [splitNlP]
  rw [ndjsonRun_eq]
  have h0 : hasNonWs ([] : List Char) = false := rfl
  simp [allLines, hsplit, numberLines, processLine, h1w, h2w, h3w, hp1, hp2, hp3, h0]

/-- Claim C6 witness: a run on the three concrete lines 1, x, 2 (the middle
one malformed for the toy parser). -/
theorem claim_C6_witness :
    ndjsonRun wParse wSize [['1'] ++ '\n' :: (['x'] ++ '\n' :: (['2'] ++ ['\n']))] =
      [Item.record 1 11 1, Item.failure ['x'] 2 "bad", Item.record 2 12 3] :=
  claim_C6_malformed_line wParse wSize ['1'] ['x'] ['2'] 1 2 "bad"
    (by decide) (by decide) (by decide) (by decide) (by decide) (by decide)
    rfl rfl rfl

/-- Claim C7: the decoder's end-of-input behaviour: an empty input yields
nothing; an all-whitespace input yields nothing while the line counter
still advances to the number of completed lines; and when the carry-over
buffer holds non-blank text at end of input it is processed as one final
line with the next line number. -/
theorem claim_C7_stream_end {J : Type} (parse : List Char → Except String J)
    (size : J → Nat) :
    ndjsonRun parse size [] = [] ∧
    (∀ input : List Char, hasNonWs input = false →
      ndjsonRun parse size [input] = [] ∧
      (decodeChunks parse size (0, []) [input]).1.1 = (splitNlP input).1.length) ∧
    (∀ input : List Char, hasNonWs (splitNlP input).2 = true →
      ndjsonRun parse size [input] =
        (decodeChunks parse size (0, []) [input]).2 ++
          processLine parse size ((splitNlP input).1.length + 1) (splitNlP input).2) := by
  refine ⟨?_, ?_, ?_⟩
  · simp [ndjsonRun, decodeChunks, decodeFinish, hasNonWs]
  · intro input hws
    have hallws : ∀ c ∈ input, isJsWhitespace c = true := by
      intro c hc
      have := List.any_eq_false.mp hws c hc
      simpa using this
    have hlines : ∀ l ∈ (splitNlP input).1, hasNonWs l = false := by
      intro l hl
      refine List.any_eq_false.mpr ?_
      intro c hc
      simpa using hallws c ((splitNlP_chars input).1 l hl c hc)
    have hfrag : hasNonWs (splitNlP input).2 = false := by
      refine List.any_eq_false.mpr ?_
      intro c hc
      simpa using hallws c ((splitNlP_chars input).2 c hc)
    constructor
    · simp [ndjsonRun, decodeChunks, decodeStep, decodeFinish,
        processLines_blank parse size _ _ hlines, hfrag]
    · simp [decodeChunks, decodeStep, processLines_fst]
  · intro input hfrag
    simp [ndjsonRun, decodeChunks, decodeStep, decodeFinish, processLines_fst, hfrag]

/-- Claim C7 witness: the whitespace-only input of two completed lines,
and a one-line unterminated input. -/
theorem claim_C7_witness :
    (ndjsonRun wParse wSize [[' ', '\n', ' ']] = [] ∧
      (decodeChunks wParse wSize (0, []) [[' ', '\n', ' ']]).1.1 =
        (splitNlP [' ', '\n', ' ']).1.length) ∧
    ndjsonRun wParse wSize [['1']] =
      (decodeChunks wParse wSize (0, []) [['1']]).2 ++
        processLine wParse wSize ((splitNlP ['1']).1.length + 1) (splitNlP ['1']).2 :=
  ⟨(claim_C7_stream_end wParse wSize).2.1 [' ', '\n', ' '] (by decide),
   (claim_C7_stream_end wParse wSize).2.2 ['1'] (by decide)⟩

/-- Claim C9: the `worker.js` decoder equals the `ndjsonstream.ts` decoder
run with the `generated_at`-augmenting parse function, so every
successfully parsed value lacking `generated_at` is yielded augmented,
with `bytes` computed from the augmented value, while values already
carrying `generated_at` are yielded unchanged. -/
theorem claim_C9_generated_at {J : Type} (parse : List Char → Except String J)
    (hasGen : J → Bool) (setGen : J → J) (size : J → Nat) :
    (∀ chunks : List (List Char),
      ndjsonRunJs parse hasGen setGen size chunks =
        ndjsonRun (fun l => Except.map (augment hasGen setGen) (parse l)) size chunks) ∧
    (∀ (n : Nat) (line : List Char) (j : J),
      hasNonWs line = true → parse line = .ok j → hasGen j = false →
      processLineJs parse hasGen setGen size n line =
        [Item.record (setGen j) (size (setGen j)) n]) ∧
    (∀ (n : Nat) (line : List Char) (j : J),
      hasNonWs line = true → parse line = .ok j → hasGen j = true →
      processLineJs parse hasGen setGen size n line = [Item.record j (size j) n]) := by
  refine ⟨fun chunks => ndjsonRunJs_eq parse hasGen setGen size chunks, ?_, ?_⟩
  · intro n line j hw hp hg
    simp [processLineJs, hw, hp, augment, hg]
  · intro n line j hw hp hg
    simp [processLineJs, hw, hp, augment, hg]

/-- Claim C9 witness: the toy parser on the line `1` (odd payload, no
`generated_at`, so it is doubled and measured after doubling) and the line
`2` (even payload, already stamped, yielded unchanged). -/
theorem claim_C9_witness :
    processLineJs wParse wHasGen wSetGen wSize 1 ['1'] = [Item.record 2 12 1] ∧
    processLineJs wParse wHasGen wSetGen wSize 3 ['2'] = [Item.record 2 12 3] :=
  ⟨(claim_C9_generated_at wParse wHasGen wSetGen wSize).2.1 1 ['1'] 1
      (by decide) rfl rfl,
   (claim_C9_generated_at wParse wHasGen wSetGen wSize).2.2 3 ['2'] 2
      (by decide) rfl rfl⟩

/-! ### Claims about response reconciliation -/

/-- Claim C3: for a success response, `handleBigQueryResponse` computes
`succeeded = batch.length - count(insertErrors)` and
`failed = count(insertErrors)` over the whole response, and attributes the
first reported error to the line number of the batch member at the
reported zero-based index; in particular a batch at line numbers
[10, 11, 12] with `insertErrors [{index: 1, errors: [{message: "x"}]}]`
gives succeeded 2, failed 1, first-failure line 11. -/
theorem claim_C3_reconciliation {J : Type} :
    (∀ (batch : List (BatchItem J)) (errs : List InsertError),
      (∀ e ∈ errs, e.index < batch.length) →
      ∃ oc : InsertOutcome J,
        handleBigQueryResponse errs batch = .ok oc ∧
        oc.batchSuccessful = (batch.length : Int) - errs.length ∧
        oc.batchFailed = errs.length ∧
        (∀ e rest, errs = e :: rest →
          ∃ item, batch[e.index]? = some item ∧
            oc.firstFailure =
              some (item.lineNumber, item.json, e.errors.headD "Unknown error"))) ∧
    (∀ a b c : J,
      handleBigQueryResponse [⟨1, ["x"]⟩] [⟨a, 10⟩, ⟨b, 11⟩, ⟨c, 12⟩] =
        .ok ⟨2, 1, some (11, b, "x")⟩) := by
  constructor
  · intro batch errs hidx
    cases errs with
    | nil =>
      refine ⟨⟨(batch.length : Int) - 0, 0, none⟩, ?_, by simp, by simp, ?_⟩
      · simp [handleBigQueryResponse]
      · intro e rest h
        exact absurd h (by simp)
    | cons e rest =>
      have he : e.index < batch.length := hidx e (List.mem_cons_self _ _)
      rcases hget : batch[e.index]? with _ | item
      · rw [List.getElem?_eq_none_iff] at hget
        omega
      · refine ⟨⟨(batch.length : Int) - (e :: rest).length, (e :: rest).length,
            some (item.lineNumber, item.json, e.errors.headD "Unknown error")⟩,
          ?_, by simp, by simp, ?_⟩
        · simp [handleBigQueryResponse, hget]
        · intro e2 rest2 h
          injection h with h1 h2
          subst h1; subst h2
          exact ⟨item, hget, rfl⟩
  · intro a b c
    simp [handleBigQueryResponse]

/-- Claim C3 witness: the spec's concrete example, on `Nat` payloads. -/
theorem claim_C3_witness :
    (∃ oc : InsertOutcome Nat,
      handleBigQueryResponse [⟨1, ["x"]⟩] [⟨5, 10⟩, ⟨6, 11⟩, ⟨7, 12⟩] = .ok oc ∧
      oc.batchSuccessful = (3 : Int) - 1 ∧
      oc.batchFailed = 1 ∧
      (∀ e rest, ([⟨1, ["x"]⟩] : List InsertError) = e :: rest →
        ∃ item, ([⟨5, 10⟩, ⟨6, 11⟩, ⟨7, 12⟩] : List (BatchItem Nat))[e.index]? =
            some item ∧
          oc.firstFailure =
            some (item.lineNumber, item.json, e.errors.headD "Unknown error"))) ∧
    handleBigQueryResponse [⟨1, ["x"]⟩] [⟨(5 : Nat), 10⟩, ⟨6, 11⟩, ⟨7, 12⟩] =
      .ok ⟨2, 1, some (11, 6, "x")⟩ :=
  ⟨by
      have h := (claim_C3_reconciliation (J := Nat)).1
        [⟨5, 10⟩, ⟨6, 11⟩, ⟨7, 12⟩] [⟨1, ["x"]⟩] (by decide)
      simpa using h,
   (claim_C3_reconciliation (J := Nat)).2 5 6 7⟩

/-- Claim C10: `handleBigQueryResponse` reads
`batch[firstError.index].lineNumber` without a bounds check: when the
first reported index is within the batch the reconciliation returns an
outcome, and when it is out of range (`index ≥ batch.length`) it throws a
runtime `TypeError` instead of returning an outcome. -/
theorem claim_C10_index_bounds {J : Type} (batch : List (BatchItem J))
    (e : InsertError) (rest : List InsertError) :
    (e.index < batch.length →
      ∃ oc : InsertOutcome J, handleBigQueryResponse (e :: rest) batch = .ok oc) ∧
    (batch.length ≤ e.index →
      handleBigQueryResponse (e :: rest) batch =
        .error "TypeError: cannot read lineNumber of undefined") := by
  constructor
  · intro h
    rcases hget : batch[e.index]? with _ | item
    · rw [List.getElem?_eq_none_iff] at hget
      omega
    · refine ⟨⟨(batch.length : Int) - (rest.length + 1 : Nat), rest.length + 1,
          some (item.lineNumber, item.json, e.errors.headD "Unknown error")⟩, ?_⟩
      simp [handleBigQueryResponse, hget]
  · intro h
    have hget : batch[e.index]? = none := List.getElem?_eq_none h
    simp [handleBigQueryResponse, hget]

/-- Claim C10 witness: a one-element batch with an in-range index 0 and an
out-of-range index 3. -/
theorem claim_C10_witness :
    (∃ oc : InsertOutcome Nat,
      handleBigQueryResponse [⟨0, ["m"]⟩] [⟨7, 5⟩] = .ok oc) ∧
    handleBigQueryResponse [⟨3, ["m"]⟩] ([⟨7, 5⟩] : List (BatchItem Nat)) =
      .error "TypeError: cannot read lineNumber of undefined" :=
  ⟨(claim_C10_index_bounds [⟨7, 5⟩] ⟨0, ["m"]⟩ []).1 (by decide),
   (claim_C10_index_bounds [⟨7, 5⟩] ⟨3, ["m"]⟩ []).2 (by decide)⟩

/-! ### Claims about batching -/

/-- Claim C5: the batching discipline of `insertIntoBq`: batches partition
the record sequence in order; every batch is non-empty and either respects
the byte threshold or is a single oversized record; a flush happens
exactly when the first record of the next batch would not have fit (so
three records of size 100 at threshold 250 give `[r1, r2]` then `[r3]`);
and with an error-free network the batches actually dispatched by
`insertIntoBq` are exactly these. -/
theorem claim_C5_batching {J : Type} (size : J → Nat) (maxB : Nat) :
    (∀ recs : List (BatchItem J), (runBatcher size maxB recs).flatten = recs) ∧
    (∀ recs : List (BatchItem J), ∀ b ∈ runBatcher size maxB recs,
      b ≠ [] ∧ (b.length = 1 ∨ batchBytes size b ≤ maxB)) ∧
    (∀ recs : List (BatchItem J),
      List.Chain' (fun x y => maxB < batchBytes size x + headSize size y)
        (runBatcher size maxB recs)) ∧
    (∀ a b c : BatchItem J, runBatcher (fun _ => 100) 250 [a, b, c] = [[a, b], [c]]) ∧
    (∀ (net : Nat → BqResp) (items : List (Item J)),
      (∀ n, net n = BqResp.httpOk []) →
      (insertIntoBq size net maxB items).1.calls =
        runBatcher size maxB (recordsOf items)) := by
  refine ⟨?_, ?_, ?_, ?_, ?_⟩
  · intro recs
    exact batchRec_flatten size maxB recs [] 0
  · intro recs b hb
    exact batchRec_mem size maxB recs [] 0 rfl (by simp) b hb
  · intro recs
    exact batchRec_chain size maxB recs [] 0 rfl
  · intro a b c
    simp [runBatcher, batchRec]
  · intro net items hnet
    rw [insertIntoBq_fst]
    have h := insertCoreFrom_clean size net maxB hnet items initBqState
    rw [insertCore, h.2]
    simp [initBqState, runBatcher]

/-- Claim C5 witness: a member of a concretely computed batching (for the
bound conjunct) and a concrete error-free two-record run (for the
dispatch conjunct). -/
theorem claim_C5_witness :
    (([⟨1, 1⟩, ⟨2, 2⟩] : List (BatchItem Nat)) ≠ [] ∧
      (([⟨1, 1⟩, ⟨2, 2⟩] : List (BatchItem Nat)).length = 1 ∨
        batchBytes (fun _ => 100) [⟨1, 1⟩, ⟨2, 2⟩] ≤ 250)) ∧
    (insertIntoBq (fun _ : Nat => 100) (fun _ => BqResp.httpOk []) 250
        [Item.record 1 100 1, Item.record 2 100 2]).1.calls =
      runBatcher (fun _ => 100) 250
        (recordsOf [Item.record 1 100 1, Item.record 2 100 2]) :=
  ⟨(claim_C5_batching (fun _ : Nat => 100) 250).2.1
      [⟨1, 1⟩, ⟨2, 2⟩, ⟨3, 3⟩] [⟨1, 1⟩, ⟨2, 2⟩] (by decide),
   (claim_C5_batching (fun _ : Nat => 100) 250).2.2.2.2
      (fun _ => BqResp.httpOk []) [Item.record 1 100 1, Item.record 2 100 2]
      (fun _ => rfl)⟩

/-! ### Claims about the terminal error of `insertIntoBq` -/

/-- Claim C1 counterexample: a run whose only problem is one malformed
line ends with NO terminal error — the parse failure only increments
`skippedRecords` and `failedInserts` stays 0, so `insertIntoBq` does not
throw, contradicting the claim that parse failures count toward the
aggregate that triggers the terminal failure. -/
theorem claim_C1_counterexample :
    (insertIntoBq (fun j : Nat => j) (fun _ => BqResp.httpOk []) maxBatchSizeBytes
        [Item.failure ['x'] 1 "bad"]).2 = none ∧
    (insertIntoBq (fun j : Nat => j) (fun _ => BqResp.httpOk []) maxBatchSizeBytes
        [Item.failure ['x'] 1 "bad"]).1.skippedRecords = 1 := by
  constructor <;> rfl

/-- Claim C1 (amended): when a run reaches the end of the stream without a
thrown transport or reconciliation error, it raises the terminal failure
iff `failedInserts` — which counts only per-row insert failures reported
in success responses — is positive; a run whose only problems are
malformed lines skips them and ends without any error. -/
theorem claim_C1_terminal_error {J : Type} (size : J → Nat) (net : Nat → BqResp)
    (maxB : Nat) :
    (∀ items : List (Item J), (insertCore size net maxB items).2 = none →
      ((insertIntoBq size net maxB items).2 ≠ none ↔
        0 < (insertCore size net maxB items).1.failedInserts)) ∧
    (∀ items : List (Item J), (∀ i ∈ items, ∃ l n m, i = Item.failure l n m) →
      (insertIntoBq size net maxB items).2 = none ∧
      (insertIntoBq size net maxB items).1.skippedRecords = items.length) := by
  constructor
  · intro items h
    exact insertIntoBq_terminal size net maxB items h
  · intro items hall
    have hloop := insertLoop_failures size net maxB items hall initBqState
    have hcore : insertCore size net maxB items =
        ({ initBqState with skippedRecords := items.length }, none) := by
      simp only [initBqState] at hloop
      unfold insertCore insertCoreFrom initBqState
      rw [hloop]
      simp
    simp [insertIntoBq, hcore, initBqState]

/-- Claim C1 witness: a clean one-record run (no failures, no terminal
error) and a malformed-only run. -/
theorem claim_C1_witness :
    ((insertIntoBq (fun j : Nat => j) (fun _ => BqResp.httpOk []) 100
        [Item.record 5 5 1]).2 ≠ none ↔
      0 < (insertCore (fun j : Nat => j) (fun _ => BqResp.httpOk []) 100
        [Item.record 5 5 1]).1.failedInserts) ∧
    ((insertIntoBq (fun j : Nat => j) (fun _ => BqResp.httpOk []) 100
        [Item.failure ['y'] 1 "bad"]).2 = none ∧
      (insertIntoBq (fun j : Nat => j) (fun _ => BqResp.httpOk []) 100
        [Item.failure ['y'] 1 "bad"]).1.skippedRecords =
        ([Item.failure ['y'] 1 "bad"] : List (Item Nat)).length) :=
  ⟨(claim_C1_terminal_error (fun j : Nat => j) (fun _ => BqResp.httpOk []) 100).1
      [Item.record 5 5 1] (by decide),
   (claim_C1_terminal_error (fun j : Nat => j) (fun _ => BqResp.httpOk []) 100).2
      [Item.failure ['y'] 1 "bad"]
      (by
        intro i hi
        simp only [List.mem_singleton] at hi
        exact ⟨['y'], 1, "bad", hi⟩)⟩

/-- Claim C2 counterexample: two records of size 100 at threshold 150 with
a failing transport: the first batch's `insertAll` call returns status
500, `sendBatchToBigQuery` throws, `insertIntoBq` does not catch it, so
the run aborts immediately — only one call was made (the second batch is
never dispatched), `failedInserts` stays 0 instead of `batch.length`, and
the propagated error is the transport error, not an end-of-stream terminal
failure. -/
theorem claim_C2_counterexample :
    (insertIntoBq (fun _ : Nat => 100) (fun _ => BqResp.httpFailure 500 "boom") 150
        [Item.record 1 100 1, Item.record 2 100 2]).2 =
      some ("BigQuery API error: " ++ toString 500 ++ " " ++ "boom") ∧
    (insertIntoBq (fun _ : Nat => 100) (fun _ => BqResp.httpFailure 500 "boom") 150
        [Item.record 1 100 1, Item.record 2 100 2]).1.calls = [[⟨1, 1⟩]] ∧
    (insertIntoBq (fun _ : Nat => 100) (fun _ => BqResp.httpFailure 500 "boom") 150
        [Item.record 1 100 1, Item.record 2 100 2]).1.failedInserts = 0 := by
  refine ⟨rfl, rfl, rfl⟩

/-- Claim C2 (amended): a non-success transport status makes
`sendBatchToBigQuery` throw and `insertIntoBq` does not catch the throw:
whatever records remain in the stream, the loop returns at once with the
transport error, having recorded only the failing call, with
`successfulInserts` and `failedInserts` unchanged — so the batch is not
counted as failed and no subsequent batch is dispatched; the error
propagates unchanged through `insertIntoBq`. -/
theorem claim_C2_transport_aborts_run {J : Type} (size : J → Nat) (net : Nat → BqResp)
    (maxB : Nat) :
    (∀ (st : BqState J) (j : J) (bytes ln : Nat) (rest : List (Item J))
        (status : Nat) (body : String),
      st.batchSizeBytes + size j > maxB → st.batch.isEmpty = false →
      net st.calls.length = BqResp.httpFailure status body →
      insertLoop size net maxB st (Item.record j bytes ln :: rest) =
        ({ st with totalBytes := st.totalBytes + bytes,
                   totalRecords := st.totalRecords + 1,
                   calls := st.calls ++ [st.batch] },
         some ("BigQuery API error: " ++ toString status ++ " " ++ body))) ∧
    (∀ (items : List (Item J)) (e : String),
      (insertCore size net maxB items).2 = some e →
      insertIntoBq size net maxB items = ((insertCore size net maxB items).1, some e)) :=
  ⟨fun st j bytes ln rest status body hflush hne hnet =>
    insertLoop_transport_abort size net maxB st j bytes ln rest status body hflush hne hnet,
   fun items e h => insertIntoBq_propagate size net maxB items e h⟩

/-- Claim C2 witness: the abort equation evaluated at a concrete mid-run
state with one more record waiting in the stream, and the propagation
conjunct at the concrete two-record run. -/
theorem claim_C2_witness :
    (insertLoop (fun _ : Nat => 100) (fun _ => BqResp.httpFailure 500 "boom") 150
        ⟨[⟨1, 1⟩], 100, 100, 1, 0, 0, 0, []⟩
        [Item.record 2 100 2, Item.record 3 100 3] =
      (⟨[⟨1, 1⟩], 100, 200, 2, 0, 0, 0, [[⟨1, 1⟩]]⟩,
       some ("BigQuery API error: " ++ toString 500 ++ " " ++ "boom"))) ∧
    insertIntoBq (fun _ : Nat => 100) (fun _ => BqResp.httpFailure 500 "boom") 150
        [Item.record 1 100 1, Item.record 2 100 2] =
      ((insertCore (fun _ : Nat => 100) (fun _ => BqResp.httpFailure 500 "boom") 150
          [Item.record 1 100 1, Item.record 2 100 2]).1,
       some ("BigQuery API error: " ++ toString 500 ++ " " ++ "boom")) :=
  ⟨(claim_C2_transport_aborts_run (fun _ : Nat => 100)
      (fun _ => BqResp.httpFailure 500 "boom") 150).1
      ⟨[⟨1, 1⟩], 100, 100, 1, 0, 0, 0, []⟩ 2 100 2 [Item.record 3 100 3] 500 "boom"
      (by decide) rfl rfl,
   (claim_C2_transport_aborts_run (fun _ : Nat => 100)
      (fun _ => BqResp.httpFailure 500 "boom") 150).2
      [Item.record 1 100 1, Item.record 2 100 2]
      ("BigQuery API error: " ++ toString 500 ++ " " ++ "boom") rfl⟩

/-! ### Claims about the queue trigger -/

/-- Claim C8 counterexample: in the `worker.ts` queue handler, messages
["a", "b"] with key `a` failing: the caught error is re-thrown, the loop
exits, and key `b` is never attempted — the attempted keys are just
["a"], contradicting the claim that every subsequent event is still
attempted. -/
theorem claim_C8_counterexample :
    queueTs wRun ["a", "b"] = (["a"], some "boom") := by
  rfl

/-- Claim C8 (amended): in the `worker.js` (and older `worker.ts`) queue
handler the per-message failure is caught, so every non-`__temporary` key
of the batch is attempted regardless of earlier failures; in the current
`worker.ts` handler a failing run's error is re-thrown (to withhold the
acknowledgment), which also exits the loop, so no event after the failing
one is attempted. -/
theorem claim_C8_queue_isolation (run : String → Except String Unit) :
    (∀ keys : List String,
      queueCatching run keys =
        keys.filter (fun k => !(k.startsWith "__temporary"))) ∧
    (∀ (k : String) (rest : List String) (e : String),
      k.startsWith "__temporary" = false → run k = Except.error e →
      queueTs run (k :: rest) = ([k], some e)) := by
  constructor
  · intro keys
    exact queueCatching_filter run keys
  · intro k rest e htemp herr
    simp [queueTs, htemp, herr]

/-- Claim C8 witness: the catching handler attempts both keys of a batch
whose first key fails, while the re-throwing handler stops after the
first. -/
theorem claim_C8_witness :
    queueCatching wRun ["a", "b"] =
      List.filter (fun k => !(k.startsWith "__temporary")) ["a", "b"] ∧
    queueTs wRun ("a" :: ["b", "c"]) = (["a"], some "boom") :=
  ⟨(claim_C8_queue_isolation wRun).1 ["a", "b"],
   (claim_C8_queue_isolation wRun).2 "a" ["b", "c"] "boom" (by decide) rfl⟩
